import Mathlib

/-!
Shallow embedding of `swiftly/concurrency.py` (class `Concurrency`).

The engine state is a record of the instance attributes set in `__init__`
(lines 40-47): `concurrency` (the requested ceiling), `pool` (whether
`self._pool` holds a `GreenPool`, i.e. `concurrency` is nonzero and the
Eventlet runtime is importable), `queue` (`self._queue`, a FIFO of
`(ident, outcome)` pairs) and `results` (`self._results`, an
insertion-ordered dict modelled as an association list).  A further field
`inflight` models the units handed to the pool by `spawn_n` whose wrapper
has not yet finished.

A unit of work is modelled by the behaviour of the bound call
`func(*args, **kwargs)`: it either returns a Python value (`Except.ok`,
with `none` standing for Python `None`) or raises an exception, which the
wrapper's `except (Exception, Timeout)` clause catches (`Except.error`).

Cooperative green-thread scheduling is modelled by explicit trace steps:
`Op.sched k` completes the `k`-th in-flight unit (the scheduler may run
units at yield points, such as the `sleep()` call inside `spawn`), and
`join` (`waitall`, lines 102-107) completes every remaining in-flight
unit before returning.
-/

namespace Swiftly

/-- A Python exception as captured by `sys.exc_info()` (line 54): its type
(`kind`, e.g. the exception class name), the exception value itself (here
carrying its message `msg`), and its traceback `tb`. -/
structure PyExc where
  kind : String
  msg : String
  tb : String
deriving DecidableEq

/-- Behaviour of one unit of work: the bound call `func(*args, **kwargs)`
(the args are pre-packaged with the callable, so the wrapper only deals
with a zero-argument thunk).  `Except.ok r` means the call returns the
Python value `r` (`none` is Python `None`); `Except.error e` means it
raises `e`. -/
abbrev Func (Val : Type) := Except PyExc (Option Val)

/-- The `(exc_type, exc_value, exc_tb, result)` tuple built by `_spawner`
(lines 49-55) and returned per ident by `get_results` (lines 79-100). -/
structure Outcome (Val : Type) where
  exc_type : Option String
  exc_value : Option PyExc
  exc_tb : Option String
  result : Option Val
deriving DecidableEq

variable {ι : Type} [DecidableEq ι]

/-- Python `k in d` on a dict represented as an insertion-ordered
association list. -/
def hasKey {α : Type} : List (ι × α) → ι → Bool
  | [], _ => false
  | p :: d, k => decide (p.1 = k) || hasKey d k

/-- Python `d.get(k)`: the value stored for key `k`, if any. -/
def dictGet {α : Type} : List (ι × α) → ι → Option α
  | [], _ => none
  | p :: d, k => if p.1 = k then some p.2 else dictGet d k

/-- Python `d[k] = v` on an insertion-ordered dict: overwrite the value in
place when the key is present, otherwise append a new entry at the end. -/
def dictSet {α : Type} (d : List (ι × α)) (k : ι) (v : α) : List (ι × α) :=
  if hasKey d k then d.map (fun p => if p.1 = k then (k, v) else p)
  else d ++ [(k, v)]

variable {Val : Type}

/-- State of one `Concurrency` instance (instance attributes of the class,
`__init__` lines 40-47, plus the in-flight units inside the GreenPool). -/
structure Concurrency (ι Val : Type) where
  concurrency : Nat
  pool : Bool
  inflight : List (ι × Func Val)
  queue : List (ι × Outcome Val)
  results : List (ι × Outcome Val)

namespace Concurrency

/-- `__init__(self, concurrency=10)` (lines 40-47): `self._pool` is a
`GreenPool` exactly when `self.concurrency` is truthy and the Eventlet
`GreenPool` class was importable; the queue and the results dict start
empty. -/
def init (concurrency : Nat) (greenPoolAvailable : Bool) : Concurrency ι Val :=
  { concurrency := concurrency
    pool := (concurrency != 0) && greenPoolAvailable
    inflight := []
    queue := []
    results := [] }

/-- The outcome tuple `_spawner` (lines 49-55) publishes for one unit of
work: on a normal return, `result` is the return value and the three
exception slots keep their initial `None`; on a caught exception, the
three slots are filled from `sys.exc_info()` and `result` keeps its
initial `None`. -/
def spawnerOutcome : Func Val → Outcome Val
  | Except.ok r => ⟨none, none, none, r⟩
  | Except.error e => ⟨some e.kind, some e, some e.tb, none⟩

/-- `_spawner(self, ident, func, *args, **kwargs)` (lines 49-55): run the
unit of work, catch `(Exception, Timeout)`, and `put` the
`(ident, (exc_type, exc_value, exc_tb, result))` pair on `self._queue`. -/
def spawner (c : Concurrency ι Val) (ident : ι) (func : Func Val) :
    Concurrency ι Val :=
  { c with queue := c.queue ++ [(ident, spawnerOutcome func)] }

/-- `spawn(self, ident, func, *args, **kwargs)` (lines 57-77): with a pool,
`spawn_n` hands the wrapper to the pool (it is now in flight; the
`sleep()` yield point that follows is a scheduling opportunity, modelled
by `Op.sched` trace steps); without a pool, `_spawner` runs synchronously
on the caller's thread before `spawn` returns. -/
def spawn (c : Concurrency ι Val) (ident : ι) (func : Func Val) :
    Concurrency ι Val :=
  if c.pool then { c with inflight := c.inflight ++ [(ident, func)] }
  else spawner c ident func

/-- One scheduling step of the cooperative runtime: the `k`-th in-flight
unit runs to completion, i.e. its wrapper `_spawner` executes and enqueues
its outcome.  Out-of-range `k` is a no-op. -/
def completeAt (c : Concurrency ι Val) (k : Nat) : Concurrency ι Val :=
  match c.inflight[k]? with
  | none => c
  | some (ident, func) =>
      { c with
        inflight := c.inflight.eraseIdx k
        queue := c.queue ++ [(ident, spawnerOutcome func)] }

/-- `join(self)` (lines 102-107): with a pool, `waitall()` blocks until
every in-flight wrapper has finished (each enqueues its outcome as it
completes); without a pool it does nothing.  `join` itself touches neither
`self._queue` nor `self._results`. -/
def join (c : Concurrency ι Val) : Concurrency ι Val :=
  if c.pool then
    { c with
      inflight := []
      queue := c.queue ++ c.inflight.map (fun p => (p.1, spawnerOutcome p.2)) }
  else c

/-- The value `get_results` returns: the source returns `self._results`
itself (line 100), i.e. a reference to the single dict allocated in
`__init__` and never rebound, not a copy of it.  The one constructor
stands for that one object. -/
inductive StoreRef where
  | selfResults
deriving DecidableEq

/-- Dereference a returned store reference against the current engine
state: `self._results` always denotes the engine's own results dict. -/
def readRef (c : Concurrency ι Val) : StoreRef → List (ι × Outcome Val)
  | StoreRef.selfResults => c.results

/-- The drain loop of `get_results` (lines 94-99): pop
`(ident, value)` pairs off the FIFO queue until `queue.Empty`, performing
`self._results[ident] = value` for each. -/
def drainQueue (q : List (ι × Outcome Val)) (d : List (ι × Outcome Val)) :
    List (ι × Outcome Val) :=
  q.foldl (fun d p => dictSet d p.1 p.2) d

/-- `get_results(self)` (lines 79-100): drain the queue into the results
dict, then return `self._results` (by reference). -/
def get_results (c : Concurrency ι Val) : StoreRef × Concurrency ι Val :=
  (StoreRef.selfResults,
   { c with queue := [], results := drainQueue c.queue c.results })

/-- One observable step of an execution trace: a public API call
(`spawn`, `get_results`, `join`) or a scheduling step of the cooperative
runtime completing an in-flight unit. -/
inductive Op (ι Val : Type) where
  | spawn (ident : ι) (func : Func Val)
  | getResults
  | join
  | sched (k : Nat)

/-- Interpret one trace step on the engine state. -/
def step (c : Concurrency ι Val) : Op ι Val → Concurrency ι Val
  | Op.spawn i f => spawn c i f
  | Op.getResults => (get_results c).2
  | Op.join => join c
  | Op.sched k => completeAt c k

/-- Interpret a trace of steps, left to right. -/
def run (c : Concurrency ι Val) (ops : List (Op ι Val)) : Concurrency ι Val :=
  ops.foldl step c

/-- Whether a trace step is a `spawn` call. -/
def isSpawn : Op ι Val → Bool
  | Op.spawn _ _ => true
  | _ => false

/-- The `(ident, outcome)` pairs the wrappers of a batch of units enqueue
as they complete. -/
def completedEntries (L : List (ι × Func Val)) : List (ι × Outcome Val) :=
  L.map (fun p => (p.1, spawnerOutcome p.2))

end Concurrency

namespace Concurrency

theorem dictGet_map_overwrite {α : Type} (d : List (ι × α)) (k : ι) (v : α)
    (h : hasKey d k = true) :
    dictGet (d.map (fun p => if p.1 = k then (k, v) else p)) k = some v := by
  induction d with
  | nil => simp [hasKey] at h
  | cons p d ih =>
    by_cases hp : p.1 = k
    · simp [dictGet, hp]
    · have h' : hasKey d k = true := by simpa [hasKey, hp] using h
      simp [dictGet, hp, ih h']

theorem dictGet_append_of_not_hasKey {α : Type} (d l : List (ι × α)) (k : ι)
    (h : hasKey d k = false) :
    dictGet (d ++ l) k = dictGet l k := by
  induction d with
  | nil => rfl
  | cons p d ih =>
    rw [hasKey] at h
    simp only [Bool.or_eq_false_iff, decide_eq_false_iff_not] at h
    simpa [dictGet, h.1] using ih h.2

theorem dictGet_dictSet_self {α : Type} (d : List (ι × α)) (k : ι) (v : α) :
    dictGet (dictSet d k v) k = some v := by
  by_cases h : hasKey d k = true
  · simpa [dictSet, h] using dictGet_map_overwrite d k v h
  · have h' : hasKey d k = false := by simpa using h
    simp [dictSet, h', dictGet_append_of_not_hasKey d _ k h', dictGet]

theorem dictGet_map_overwrite_ne {α : Type} (d : List (ι × α)) {k k' : ι}
    (v : α) (h : k ≠ k') :
    dictGet (d.map (fun p => if p.1 = k' then (k', v) else p)) k = dictGet d k := by
  induction d with
  | nil => rfl
  | cons p d ih =>
    by_cases hp : p.1 = k'
    · have hk : ¬ p.1 = k := by rw [hp]; exact fun e => h e.symm
      have hk' : ¬ k' = k := fun e => h e.symm
      simp [dictGet, hp, hk, hk', ih]
    · simp [dictGet, hp, ih]

theorem dictGet_append_single_ne {α : Type} (d : List (ι × α)) {k k' : ι}
    (v : α) (h : k ≠ k') :
    dictGet (d ++ [(k', v)]) k = dictGet d k := by
  induction d with
  | nil =>
    have h' : ¬ k' = k := fun e => h e.symm
    simp [dictGet, h']
  | cons p d ih => simp [dictGet, ih]

theorem dictGet_dictSet_ne {α : Type} (d : List (ι × α)) {k k' : ι} (v : α)
    (h : k ≠ k') :
    dictGet (dictSet d k' v) k = dictGet d k := by
  by_cases hk : hasKey d k' = true
  · simpa [dictSet, hk] using dictGet_map_overwrite_ne d v h
  · have hk' : hasKey d k' = false := by simpa using hk
    simpa [dictSet, hk'] using dictGet_append_single_ne d v h

theorem isSome_dictGet_dictSet {α : Type} (d : List (ι × α)) (k k' : ι) (v : α)
    (h : (dictGet d k).isSome = true) :
    (dictGet (dictSet d k' v) k).isSome = true := by
  by_cases hk : k = k'
  · subst hk; rw [dictGet_dictSet_self]; rfl
  · rw [dictGet_dictSet_ne d v hk]; exact h

theorem drainQueue_cons (p : ι × Outcome Val) (q d : List (ι × Outcome Val)) :
    drainQueue (p :: q) d = drainQueue q (dictSet d p.1 p.2) := rfl

theorem drainQueue_append (q₁ q₂ d : List (ι × Outcome Val)) :
    drainQueue (q₁ ++ q₂) d = drainQueue q₂ (drainQueue q₁ d) := by
  simp [drainQueue, List.foldl_append]

theorem dictGet_drainQueue_of_not_mem (q d : List (ι × Outcome Val)) (k : ι)
    (h : k ∉ q.map Prod.fst) :
    dictGet (drainQueue q d) k = dictGet d k := by
  induction q generalizing d with
  | nil => rfl
  | cons p q ih =>
    simp only [List.map_cons, List.mem_cons, not_or] at h
    rw [drainQueue_cons, ih _ h.2, dictGet_dictSet_ne d p.2 h.1]

theorem isSome_dictGet_drainQueue (q d : List (ι × Outcome Val)) (k : ι)
    (h : (dictGet d k).isSome = true) :
    (dictGet (drainQueue q d) k).isSome = true := by
  induction q generalizing d with
  | nil => exact h
  | cons p q ih => exact ih _ (isSome_dictGet_dictSet d k p.1 p.2 h)

theorem dictGet_drainQueue_last (q₁ q₂ d : List (ι × Outcome Val)) (k : ι)
    (v : Outcome Val) (h : k ∉ q₂.map Prod.fst) :
    dictGet (drainQueue (q₁ ++ (k, v) :: q₂) d) k = some v := by
  rw [drainQueue_append, drainQueue_cons,
    dictGet_drainQueue_of_not_mem _ _ _ h]
  exact dictGet_dictSet_self _ k v

theorem dictSet_of_not_hasKey {α : Type} (d : List (ι × α)) (k : ι) (v : α)
    (h : hasKey d k = false) :
    dictSet d k v = d ++ [(k, v)] := by
  simp [dictSet, h]

theorem hasKey_append {α : Type} (d l : List (ι × α)) (k : ι) :
    hasKey (d ++ l) k = (hasKey d k || hasKey l k) := by
  induction d with
  | nil => simp [hasKey]
  | cons p d ih => simp [hasKey, ih, Bool.or_assoc]

theorem drainQueue_of_disjoint (q : List (ι × Outcome Val)) :
    ∀ d, (q.map Prod.fst).Nodup →
    (∀ k ∈ q.map Prod.fst, hasKey d k = false) →
    drainQueue q d = d ++ q := by
  induction q with
  | nil => intro d _ _; simp [drainQueue]
  | cons p q ih =>
    intro d hnd hdis
    simp only [List.map_cons, List.nodup_cons] at hnd
    have hd : hasKey d p.1 = false := hdis p.1 (by simp)
    rw [drainQueue_cons, dictSet_of_not_hasKey d p.1 p.2 hd,
      ih (d ++ [(p.1, p.2)]) hnd.2 ?_]
    · simp
    · intro k hk
      rw [hasKey_append]
      have h1 : hasKey d k = false := hdis k (by simp [hk])
      have h2 : ¬ p.1 = k := fun e => hnd.1 (e ▸ hk)
      simp [h1, hasKey, h2]

theorem run_nil (c : Concurrency ι Val) : run c [] = c := rfl

theorem run_cons (c : Concurrency ι Val) (op : Op ι Val) (ops : List (Op ι Val)) :
    run c (op :: ops) = run (step c op) ops := rfl

theorem run_append (c : Concurrency ι Val) (l₁ l₂ : List (Op ι Val)) :
    run c (l₁ ++ l₂) = run (run c l₁) l₂ := by
  simp [run, List.foldl_append]

theorem pool_step (c : Concurrency ι Val) (op : Op ι Val) :
    (step c op).pool = c.pool := by
  cases op with
  | spawn i f => by_cases h : c.pool = true <;> simp [step, spawn, spawner, h]
  | getResults => rfl
  | join => by_cases h : c.pool = true <;> simp [step, join, h]
  | sched k =>
    rcases hk : c.inflight[k]? with _ | ⟨i, f⟩ <;> simp [step, completeAt, hk]

theorem pool_run (c : Concurrency ι Val) (ops : List (Op ι Val)) :
    (run c ops).pool = c.pool := by
  induction ops generalizing c with
  | nil => rfl
  | cons op ops ih => rw [run_cons, ih, pool_step]

theorem isSome_results_step (c : Concurrency ι Val) (op : Op ι Val) (k : ι)
    (h : (dictGet c.results k).isSome = true) :
    (dictGet (step c op).results k).isSome = true := by
  cases op with
  | spawn i f =>
    by_cases hp : c.pool = true <;> simpa [step, spawn, spawner, hp] using h
  | getResults =>
    exact isSome_dictGet_drainQueue c.queue c.results k h
  | join => by_cases hp : c.pool = true <;> simpa [step, join, hp] using h
  | sched k' =>
    rcases hk : c.inflight[k']? with _ | ⟨i, f⟩ <;>
      simpa [step, completeAt, hk] using h

theorem step_fix (c : Concurrency ι Val) (op : Op ι Val)
    (hq : c.queue = []) (hi : c.inflight = []) (hop : isSpawn op = false) :
    step c op = c := by
  obtain ⟨cc, pl, infl, q, r⟩ := c
  dsimp only at hq hi
  subst hq
  subst hi
  cases op with
  | spawn i f => simp [isSpawn] at hop
  | getResults => rfl
  | join => cases pl <;> rfl
  | sched k => rfl

theorem run_fix (c : Concurrency ι Val) (L : List (Op ι Val))
    (hq : c.queue = []) (hi : c.inflight = [])
    (hL : ∀ op ∈ L, isSpawn op = false) :
    run c L = c := by
  induction L with
  | nil => rfl
  | cons op L ih =>
    rw [run_cons, step_fix c op hq hi (hL op (by simp))]
    exact ih fun o ho => hL o (by simp [ho])

theorem run_spawnList_pool (L : List (ι × Func Val)) :
    ∀ c : Concurrency ι Val, c.pool = true →
    (run c (L.map fun p => Op.spawn p.1 p.2)).inflight = c.inflight ++ L ∧
    (run c (L.map fun p => Op.spawn p.1 p.2)).queue = c.queue ∧
    (run c (L.map fun p => Op.spawn p.1 p.2)).results = c.results := by
  induction L with
  | nil => intro c _; simp [run]
  | cons p L ih =>
    intro c hp
    rw [List.map_cons, run_cons]
    have hstep : step c (Op.spawn p.1 p.2) =
        { c with inflight := c.inflight ++ [p] } := by
      simp [step, spawn, hp]
    rw [hstep]
    rcases ih { c with inflight := c.inflight ++ [p] } (by simp [hp]) with
      ⟨h1, h2, h3⟩
    refine ⟨?_, h2, h3⟩
    rw [h1]
    simp

theorem run_spawnList_nopool (L : List (ι × Func Val)) :
    ∀ c : Concurrency ι Val, c.pool = false →
    (run c (L.map fun p => Op.spawn p.1 p.2)).inflight = c.inflight ∧
    (run c (L.map fun p => Op.spawn p.1 p.2)).queue =
      c.queue ++ completedEntries L ∧
    (run c (L.map fun p => Op.spawn p.1 p.2)).results = c.results := by
  induction L with
  | nil => intro c _; simp [run, completedEntries]
  | cons p L ih =>
    intro c hp
    rw [List.map_cons, run_cons]
    have hstep : step c (Op.spawn p.1 p.2) =
        { c with queue := c.queue ++ [(p.1, spawnerOutcome p.2)] } := by
      simp [step, spawn, spawner, hp]
    rw [hstep]
    rcases ih { c with queue := c.queue ++ [(p.1, spawnerOutcome p.2)] }
      (by simp [hp]) with ⟨h1, h2, h3⟩
    refine ⟨h1, ?_, h3⟩
    rw [h2]
    simp [completedEntries]

theorem get_results_join_spawn (c : Concurrency ι Val) (i : ι) (f : Func Val) :
    dictGet ((get_results (join (spawn c i f))).2.results) i
      = some (spawnerOutcome f) := by
  by_cases hp : c.pool = true
  · have hs : spawn c i f = { c with inflight := c.inflight ++ [(i, f)] } := by
      simp [spawn, hp]
    have hj : join (spawn c i f) =
        { c with
          inflight := []
          queue := c.queue ++ (c.inflight ++ [(i, f)]).map
            (fun p => (p.1, spawnerOutcome p.2)) } := by
      rw [hs]; simp [join, hp]
    rw [hj]
    show dictGet (drainQueue (c.queue ++ (c.inflight ++ [(i, f)]).map
      (fun p => (p.1, spawnerOutcome p.2))) c.results) i = some (spawnerOutcome f)
    rw [List.map_append, ← List.append_assoc]
    have : (([(i, f)]).map fun p => (p.1, spawnerOutcome p.2)) =
        (i, spawnerOutcome f) :: [] := rfl
    rw [this]
    exact dictGet_drainQueue_last _ [] c.results i (spawnerOutcome f) (by simp)
  · have hp' : c.pool = false := by simpa using hp
    have hs : spawn c i f =
        { c with queue := c.queue ++ [(i, spawnerOutcome f)] } := by
      simp [spawn, spawner, hp']
    have hj : join (spawn c i f) = spawn c i f := by
      rw [hs]; simp [join, hp']
    rw [hj, hs]
    show dictGet (drainQueue (c.queue ++ [(i, spawnerOutcome f)]) c.results) i
      = some (spawnerOutcome f)
    have : c.queue ++ [(i, spawnerOutcome f)] =
        c.queue ++ (i, spawnerOutcome f) :: [] := rfl
    rw [this]
    exact dictGet_drainQueue_last _ [] c.results i (spawnerOutcome f) (by simp)

/-- C1: for a unit of work that returns the value `v` without raising,
the Outcome stored for its identifier after a drain is the success
variant `(None, None, None, v)` — from any prior engine state, spawning
the unit, letting it complete (`join`) and draining (`get_results`)
stores exactly `⟨none, none, none, v⟩` for its identifier. -/
theorem success_outcome (c : Concurrency ι Val) (i : ι) (v : Option Val) :
    dictGet ((get_results (join (spawn c i (Except.ok v)))).2.results) i
      = some ⟨none, none, none, v⟩ := by
  simpa [spawnerOutcome] using get_results_join_spawn c i (Except.ok v)

/-- C2: for a unit of work that raises an exception `ex`, the wrapper
intercepts it and publishes a Failure Outcome carrying the exception's
type, the exception value itself, and its traceback; `spawn`, `join` and
`get_results` are total functions of the state (the except clause of
`_spawner` is the failure boundary), so the error never propagates to the
caller, and after the unit completes and is drained the store holds
`(type ex, ex, traceback ex, None)` for its identifier. -/
theorem failure_outcome (c : Concurrency ι Val) (i : ι) (ex : PyExc) :
    dictGet ((get_results (join (spawn c i (Except.error ex)))).2.results) i
      = some ⟨some ex.kind, some ex, some ex.tb, none⟩ := by
  simpa [spawnerOutcome] using get_results_join_spawn c i (Except.error ex)

/-- C3: spawning N units with pairwise distinct identifiers on a freshly
constructed engine (ceiling at least 1), then `join()`, then
`get_results()`, yields a result store that is exactly the N completed
entries — one per spawned identifier, in particular N entries in all. -/
theorem spawn_join_drain_exact (C : Nat) (g : Bool) (L : List (ι × Func Val))
    (hC : 1 ≤ C) (hnd : (L.map Prod.fst).Nodup) :
    (run (init C g)
        ((L.map fun p => Op.spawn p.1 p.2) ++ [Op.join, Op.getResults])).results
      = completedEntries L ∧
    (run (init C g)
        ((L.map fun p => Op.spawn p.1 p.2) ++ [Op.join, Op.getResults])).results.length
      = L.length := by
  have hdrain : drainQueue (completedEntries L) ([] : List (ι × Outcome Val))
      = completedEntries L := by
    have hkeys : ((completedEntries L : List (ι × Outcome Val))).map Prod.fst
        = L.map Prod.fst := by
      simp [completedEntries]
    simpa using drainQueue_of_disjoint (completedEntries L) []
      (by rw [hkeys]; exact hnd) (fun k _ => rfl)
  have key : (run (init C g : Concurrency ι Val)
      ((L.map fun p => Op.spawn p.1 p.2) ++ [Op.join, Op.getResults])).results
      = completedEntries L := by
    rw [run_append, run_cons, run_cons, run_nil]
    by_cases hp : ((init C g : Concurrency ι Val)).pool = true
    · obtain ⟨h1, h2, h3⟩ := run_spawnList_pool L (init C g) hp
      have hpool₁ : (run (init C g : Concurrency ι Val)
          (L.map fun p => Op.spawn p.1 p.2)).pool = true := by
        rw [pool_run]; exact hp
      show drainQueue
        (join (run (init C g) (L.map fun p => Op.spawn p.1 p.2))).queue
        (join (run (init C g) (L.map fun p => Op.spawn p.1 p.2))).results
        = completedEntries L
      have hjq : (join (run (init C g : Concurrency ι Val)
          (L.map fun p => Op.spawn p.1 p.2))).queue = completedEntries L := by
        simp only [join, hpool₁, if_true]
        rw [h2, h1]
        simp [init, completedEntries]
      have hjr : (join (run (init C g : Concurrency ι Val)
          (L.map fun p => Op.spawn p.1 p.2))).results = [] := by
        simp only [join, hpool₁, if_true]
        rw [h3]
        rfl
      rw [hjq, hjr]
      exact hdrain
    · have hp' : ((init C g : Concurrency ι Val)).pool = false := by
        simpa using hp
      obtain ⟨h1, h2, h3⟩ := run_spawnList_nopool L (init C g) hp'
      have hpool₁ : (run (init C g : Concurrency ι Val)
          (L.map fun p => Op.spawn p.1 p.2)).pool = false := by
        rw [pool_run]; exact hp'
      have hj : join (run (init C g : Concurrency ι Val)
          (L.map fun p => Op.spawn p.1 p.2))
          = run (init C g) (L.map fun p => Op.spawn p.1 p.2) := by
        simp [join, hpool₁]
      show drainQueue
        (join (run (init C g) (L.map fun p => Op.spawn p.1 p.2))).queue
        (join (run (init C g) (L.map fun p => Op.spawn p.1 p.2))).results
        = completedEntries L
      rw [hj, h2, h3]
      show drainQueue ((init C g : Concurrency ι Val).queue ++ completedEntries L)
        (init C g : Concurrency ι Val).results = completedEntries L
      simpa [init] using hdrain
  exact ⟨key, by rw [key]; simp [completedEntries]⟩

/-- C3 witness: two units with identifiers 1 and 2 on a fresh engine with
ceiling 3; after join and drain the store is exactly their two completed
entries. -/
theorem spawn_join_drain_exact_witness :
    (1 : Nat) ≤ 3 ∧
    (([((1 : Nat), (Except.ok (some (2 : Nat)) : Func Nat)),
        (2, Except.error ⟨"E", "m", "t"⟩)].map Prod.fst).Nodup) ∧
    ((run (init 3 true : Concurrency Nat Nat)
        (([((1 : Nat), (Except.ok (some (2 : Nat)) : Func Nat)),
            (2, Except.error ⟨"E", "m", "t"⟩)].map fun p => Op.spawn p.1 p.2)
          ++ [Op.join, Op.getResults])).results
      = completedEntries [((1 : Nat), (Except.ok (some (2 : Nat)) : Func Nat)),
          (2, Except.error ⟨"E", "m", "t"⟩)] ∧
    (run (init 3 true : Concurrency Nat Nat)
        (([((1 : Nat), (Except.ok (some (2 : Nat)) : Func Nat)),
            (2, Except.error ⟨"E", "m", "t"⟩)].map fun p => Op.spawn p.1 p.2)
          ++ [Op.join, Op.getResults])).results.length
      = [((1 : Nat), (Except.ok (some (2 : Nat)) : Func Nat)),
          (2, Except.error ⟨"E", "m", "t"⟩)].length) :=
  ⟨by decide, by decide,
    spawn_join_drain_exact 3 true
      [((1 : Nat), (Except.ok (some (2 : Nat)) : Func Nat)),
        (2, Except.error ⟨"E", "m", "t"⟩)] (by decide) (by decide)⟩

/-- C4: on an engine whose pool is absent — constructed with
`concurrency = 0`, or with no pooled runtime available — every `spawn`
call runs the wrapper synchronously on the caller's thread
(`spawn = spawner`), so after the first drain following `spawn`'s return
the Outcome for its identifier is already in the result store, with no
`join()` in between. -/
theorem degraded_spawn_sync (C : Nat) (g : Bool) (ops : List (Op ι Val))
    (i : ι) (f : Func Val) (h : C = 0 ∨ g = false) :
    spawn (run (init C g) ops) i f = spawner (run (init C g) ops) i f ∧
    dictGet ((get_results (spawn (run (init C g) ops) i f)).2.results) i
      = some (spawnerOutcome f) := by
  have hp : (run (init C g : Concurrency ι Val) ops).pool = false := by
    rw [pool_run]
    rcases h with h | h <;> simp [init, h]
  have hs : spawn (run (init C g : Concurrency ι Val) ops) i f
      = spawner (run (init C g) ops) i f := by
    simp [spawn, hp]
  refine ⟨hs, ?_⟩
  rw [hs]
  show dictGet (drainQueue ((run (init C g : Concurrency ι Val) ops).queue
      ++ (i, spawnerOutcome f) :: []) (run (init C g) ops).results) i
    = some (spawnerOutcome f)
  exact dictGet_drainQueue_last _ [] _ i _ (by simp)

/-- C4 witness: an engine constructed with `concurrency = 0`; spawning
identifier 1 runs synchronously and one drain already shows its
success outcome. -/
theorem degraded_spawn_sync_witness :
    ((0 : Nat) = 0 ∨ (true : Bool) = false) ∧
    (spawn (run (init 0 true : Concurrency Nat Nat) []) 1 (Except.ok (some 2))
        = spawner (run (init 0 true : Concurrency Nat Nat) []) 1
            (Except.ok (some 2)) ∧
      dictGet ((get_results (spawn (run (init 0 true : Concurrency Nat Nat) [])
          1 (Except.ok (some 2)))).2.results) 1
        = some (spawnerOutcome (Except.ok (some 2)))) :=
  ⟨Or.inl rfl,
    degraded_spawn_sync 0 true [] 1 (Except.ok (some 2)) (Or.inl rfl)⟩

/-- C5 counterexample: the claim as stated fails on the code: with a
pooled engine and one unit still in flight, two `get_results()` calls
with only a `join()` — no spawn — in between return different mappings
(the first returns the empty store, the second holds the unit's entry,
enqueued while `join` waited for it). -/
theorem drain_not_equal_after_join :
    ¬ ((get_results (join (get_results (run (init 10 true : Concurrency Nat Nat)
          [Op.spawn 1 (Except.ok (some 2))])).2)).2.results
        = (get_results (run (init 10 true : Concurrency Nat Nat)
          [Op.spawn 1 (Except.ok (some 2))])).2.results) := by
  decide

/-- C5 (amended): calling `get_results()` twice with no unit still in
flight and no intervening `spawn` call returns an equal mapping both
times — the second drain finds the channel empty and adds nothing; it
leaves the whole state of the first call untouched. -/
theorem drain_idempotent (c : Concurrency ι Val) (L : List (Op ι Val))
    (hin : c.inflight = []) (hL : ∀ op ∈ L, isSpawn op = false) :
    (get_results (run (get_results c).2 L)).2 = (get_results c).2 := by
  have h1 : (get_results c).2.queue = [] := rfl
  have h2 : (get_results c).2.inflight = c.inflight := rfl
  have hfix : run (get_results c).2 L = (get_results c).2 :=
    run_fix _ L h1 (h2.trans hin) hL
  rw [hfix]
  exact step_fix (get_results c).2 Op.getResults h1 (h2.trans hin) rfl

/-- C5 witness: on a fresh engine (nothing in flight), a second drain
after an intervening `join`, a scheduling step and a third drain still
returns the same mapping. -/
theorem drain_idempotent_witness :
    (init 10 true : Concurrency Nat Nat).inflight = [] ∧
    (∀ op ∈ ([Op.join, Op.sched 0, Op.getResults] : List (Op Nat Nat)),
      isSpawn op = false) ∧
    (get_results (run (get_results (init 10 true : Concurrency Nat Nat)).2
        [Op.join, Op.sched 0, Op.getResults])).2
      = (get_results (init 10 true : Concurrency Nat Nat)).2 :=
  ⟨rfl, by decide,
    drain_idempotent (init 10 true) [Op.join, Op.sched 0, Op.getResults]
      rfl (by decide)⟩

/-- C6: the result store is monotone — an identifier with a stored
Outcome keeps a stored Outcome across any sequence of engine operations
(spawn, get_results, join, scheduling steps): no operation ever deletes a
store entry, the stored identifiers only stay or grow (a later drain of a
duplicate identifier may overwrite the Outcome held there, per C7, but
never removes the entry). -/
theorem store_monotone (c : Concurrency ι Val) (ops : List (Op ι Val)) (k : ι)
    (h : (dictGet c.results k).isSome = true) :
    (dictGet (run c ops).results k).isSome = true := by
  revert h
  induction ops generalizing c with
  | nil => exact fun h => h
  | cons op ops ih =>
    intro h
    rw [run_cons]
    exact ih (step c op) (isSome_results_step c op k h)

/-- C6 witness: identifier 1 is stored; after a drain and a join it is
still stored. -/
theorem store_monotone_witness :
    (dictGet ((⟨10, true, [], [], [(1, ⟨none, none, none, some 5⟩)]⟩ :
        Concurrency Nat Nat)).results 1).isSome = true ∧
    (dictGet (run (⟨10, true, [], [], [(1, ⟨none, none, none, some 5⟩)]⟩ :
        Concurrency Nat Nat)
        [Op.getResults, Op.join]).results 1).isSome = true :=
  ⟨by decide,
    store_monotone _ [Op.getResults, Op.join] 1 (by decide)⟩

/-- C7: when two entries for the same identifier sit in the channel (two
units spawned with that identifier, both completed), a drain stores the
Outcome of the entry drained last — silent last-write-wins overwrite,
with no error raised (`get_results` is total). -/
theorem last_drained_wins (c : Concurrency ι Val) (x : ι) (o₁ o₂ : Outcome Val)
    (q₁ q₂ q₃ : List (ι × Outcome Val))
    (hq : c.queue = (q₁ ++ (x, o₁) :: q₂) ++ (x, o₂) :: q₃)
    (hx : x ∉ q₃.map Prod.fst) :
    dictGet ((get_results c).2.results) x = some o₂ := by
  show dictGet (drainQueue c.queue c.results) x = some o₂
  rw [hq]
  exact dictGet_drainQueue_last (q₁ ++ (x, o₁) :: q₂) q₃ c.results x o₂ hx

/-- C7 witness: identifier 1 completed twice (outcomes 7 then 9); after
the drain the store holds the entry drained last, 9. -/
theorem last_drained_wins_witness :
    ((⟨0, false, [],
        [(1, ⟨none, none, none, some 7⟩), (1, ⟨none, none, none, some 9⟩)],
        []⟩ : Concurrency Nat Nat).queue
      = (([] ++ ((1 : Nat), (⟨none, none, none, some 7⟩ : Outcome Nat)) :: [])
          ++ ((1 : Nat), (⟨none, none, none, some (9 : Nat)⟩ : Outcome Nat)) :: [])) ∧
    ((1 : Nat) ∉ (([] : List (Nat × Outcome Nat)).map Prod.fst)) ∧
    dictGet ((get_results (⟨0, false, [],
        [(1, ⟨none, none, none, some 7⟩), (1, ⟨none, none, none, some 9⟩)],
        []⟩ : Concurrency Nat Nat)).2.results) 1
      = some ⟨none, none, none, some 9⟩ :=
  ⟨rfl, by decide,
    last_drained_wins _ 1 ⟨none, none, none, some 7⟩ ⟨none, none, none, some 9⟩
      [] [] [] rfl (by decide)⟩

/-- C8: `join` touches neither the result store nor the entries already
sitting in the channel: the store is unchanged, and the channel after
`join` is the old channel plus (at its tail) the entries of units that
completed while `join` waited — nothing is drained into the store until a
later `get_results`. -/
theorem join_frame (c : Concurrency ι Val) :
    (join c).results = c.results ∧
    ∃ l, (join c).queue = c.queue ++ l := by
  by_cases hp : c.pool = true
  · exact ⟨by simp [join, hp],
      ⟨c.inflight.map (fun p => (p.1, spawnerOutcome p.2)), by simp [join, hp]⟩⟩
  · have hp' : c.pool = false := by simpa using hp
    exact ⟨by simp [join, hp'], ⟨[], by simp [join, hp']⟩⟩

/-- C9: every Outcome tuple the wrapper publishes satisfies variant
exclusivity — on a normal return the three exception slots are all `none`
and `result` holds the return value; on a captured exception `result` is
`none`; and `exc_type` is `none` exactly when no exception was
intercepted. -/
theorem outcome_exclusive (f : Func Val) :
    ((spawnerOutcome f).exc_type = none ↔ ∃ r, f = Except.ok r) ∧
    ((∃ r, f = Except.ok r ∧ spawnerOutcome f = ⟨none, none, none, r⟩) ∨
      (∃ ex, f = Except.error ex ∧ (spawnerOutcome f).result = none ∧
        spawnerOutcome f = ⟨some ex.kind, some ex, some ex.tb, none⟩)) := by
  cases f with
  | ok r => exact ⟨⟨fun _ => ⟨r, rfl⟩, fun _ => rfl⟩, Or.inl ⟨r, rfl, rfl⟩⟩
  | error ex =>
    refine ⟨⟨fun h => ?_, fun ⟨r, hr⟩ => Except.noConfusion hr⟩,
      Or.inr ⟨ex, rfl, rfl, rfl⟩⟩
    simp [spawnerOutcome] at h

/-- C10: `get_results` returns `self._results` itself, not a copy: every
call returns the same store reference, and dereferencing a reference
obtained from an earlier call against the engine after any later
operations shows exactly the current store — including entries added by
later drains. -/
theorem get_results_returns_store (c : Concurrency ι Val) (ops : List (Op ι Val)) :
    (get_results (run (get_results c).2 ops)).1 = (get_results c).1 ∧
    readRef (run (get_results c).2 ops) (get_results c).1
      = (run (get_results c).2 ops).results :=
  ⟨rfl, rfl⟩

end Concurrency

end Swiftly
